import Mathlib

/-!
Shallow embedding of the `cisc230-week14` repository: the generic adjacency-map
graph container of `src/graph.h` (classes `DiGraph` and `Graph`) and the
Euler-trail finder of `src/euler.cpp` (`extend_path`, `find_path`).

A C++ `std::map<T, std::map<T, size_t>>` with `T = int` is embedded as an
association list `List (Int × List (Int × Nat))` whose keys are kept in
ascending order by the insertion primitive `mapSet`, mirroring the iteration
order of `std::map`.  `operator[]`'s default construction, `at`'s throwing
behaviour (as `Option`), and `erase` are embedded by `mapSet`, `mapFind?`
and `mapErase`.
-/

/-- Inner adjacency map of one vertex: neighbor ↦ weight, ascending keys. -/
abbrev NbrMap : Type := List (Int × Nat)

/-- Outer adjacency map: vertex ↦ inner map, ascending keys.  Embeds the
`adj` member of `DiGraph<int>`. -/
abbrev DG : Type := List (Int × NbrMap)

/-- `std::map` lookup that can fail: embeds `find` / `at` (with `at`'s throw
represented by `none`). -/
def mapFind? {α : Type} (l : List (Int × α)) (k : Int) : Option α :=
  match l with
  | [] => none
  | (k', v) :: t => if k = k' then some v else mapFind? t k

/-- `std::map` `operator[] = v`: replace the value at `k`, or insert `(k, v)`
at its ascending position. -/
def mapSet {α : Type} (l : List (Int × α)) (k : Int) (v : α) : List (Int × α) :=
  match l with
  | [] => [(k, v)]
  | (k', v') :: t =>
    if k < k' then (k, v) :: (k', v') :: t
    else if k = k' then (k, v) :: t
    else (k', v') :: mapSet t k v

/-- `std::map::erase(k)`: drop the entry with key `k`. -/
def mapErase {α : Type} (l : List (Int × α)) (k : Int) : List (Int × α) :=
  l.filter (fun p => p.1 ≠ k)

namespace DiGraph

/-- `DiGraph::is_vertex`: `adj.find(v) != adj.end()`. -/
def is_vertex (g : DG) (v : Int) : Bool := (mapFind? g v).isSome

/-- `DiGraph::add_vertex`: `adj[v];` — default-construct the entry if absent. -/
def add_vertex (g : DG) (v : Int) : DG :=
  match mapFind? g v with
  | some _ => g
  | none => mapSet g v []

/-- `DiGraph::is_edge`: `is_vertex(v1) && adj.at(v1).find(v2) != end`. -/
def is_edge (g : DG) (v1 v2 : Int) : Bool :=
  match mapFind? g v1 with
  | some m => (mapFind? m v2).isSome
  | none => false

/-- `DiGraph::update_edge`: `add_vertex(v2); adj[v1][v2] = w;` — note that
`adj[v1]` also creates `v1` when absent. -/
def update_edge (g : DG) (v1 v2 : Int) (w : Nat) : DG :=
  let g1 := add_vertex g v2
  mapSet g1 v1 (mapSet ((mapFind? g1 v1).getD []) v2 w)

/-- `DiGraph::add_edge`: `if (!is_edge(v1, v2)) update_edge(v1, v2, w);`. -/
def add_edge (g : DG) (v1 v2 : Int) (w : Nat := 1) : DG :=
  if is_edge g v1 v2 then g else update_edge g v1 v2 w

/-- `DiGraph::remove_edge`: `adj[v1].erase(v2);` — note that `operator[]`
creates vertex `v1` when it is absent. -/
def remove_edge (g : DG) (v1 v2 : Int) : DG :=
  mapSet g v1 (mapErase ((mapFind? g v1).getD []) v2)

/-- `DiGraph::weight`: the stored weight when the edge exists, else `0`. -/
def weight (g : DG) (v1 v2 : Int) : Nat :=
  match mapFind? g v1 with
  | some m => (mapFind? m v2).getD 0
  | none => 0

/-- `DiGraph::neighbors`: keys of `adj.at(v)` in map order, `[]` when `v` is
absent. -/
def neighbors (g : DG) (v : Int) : List Int :=
  match mapFind? g v with
  | some m => m.map Prod.fst
  | none => []

/-- `DiGraph::degree_out`: `adj.at(v).size()` — `at` throws on an absent
vertex, embedded as `none`. -/
def degree_out? (g : DG) (v : Int) : Option Nat :=
  (mapFind? g v).map List.length

/-- `DiGraph::vertices`: outer keys in map order. -/
def vertices (g : DG) : List Int := g.map Prod.fst

/-- `DiGraph::remove`: erase `v` from every inner map, then erase vertex `v`. -/
def remove (g : DG) (v : Int) : DG :=
  mapErase (g.map (fun p => (p.1, mapErase p.2 v))) v

end DiGraph

namespace Graph

/-- `Graph::add_edge`: the directed insertion performed in both directions. -/
def add_edge (g : DG) (v1 v2 : Int) (w : Nat := 1) : DG :=
  DiGraph.add_edge (DiGraph.add_edge g v1 v2 w) v2 v1 w

/-- `Graph::degree`: `DiGraph::degree_out` (throw on absent vertex = `none`). -/
def degree? (g : DG) (v : Int) : Option Nat := DiGraph.degree_out? g v

/-- `Graph::remove_edge`: the directed removal performed in both directions. -/
def remove_edge (g : DG) (v1 v2 : Int) : DG :=
  DiGraph.remove_edge (DiGraph.remove_edge g v1 v2) v2 v1

/-- `Graph::update_edge`: the directed update performed in both directions. -/
def update_edge (g : DG) (v1 v2 : Int) (w : Nat) : DG :=
  DiGraph.update_edge (DiGraph.update_edge g v1 v2 w) v2 v1 w

end Graph

namespace Euler

/-!
Embedding of `src/euler.cpp`.  `g.degree(v)` in the C++ source throws when
`v` is absent; inside `find_path` it is only applied to members of
`g.vertices()`, where it equals the length of the neighbor list, which is how
it is rendered here.  The recursion of `extend_path` is embedded with an
explicit fuel argument: whenever every step removes an edge (which holds as
soon as no vertex is labeled `0`, see the sentinel analysis below) the C++
recursion terminates within `totalEntries g + 1` steps and the two agree;
when a vertex labeled `0` defeats the sentinel the C++ program recurses
forever while the embedding stops at fuel exhaustion, returning the trail
accumulated so far.
-/

/-- Degree of a vertex as `find_path`'s loop observes it (the vertex is
always a member of `vertices g` there, so `at` never throws). -/
def degD (g : DG) (v : Int) : Nat := ((mapFind? g v).map List.length).getD 0

/-- One iteration of the degree-parity scan at the top of `find_path`:
increment `count_odd` and record the vertex in `first_odd` when it is still
at its `0` sentinel. -/
def oddStep (g : DG) (cf : Nat × Int) (v : Int) : Nat × Int :=
  if degD g v % 2 = 1 then (cf.1 + 1, if cf.2 = 0 then v else cf.2) else cf

/-- The scan at the top of `find_path`: count odd-degree vertices and record
the first one, with `0` as the "none found yet" sentinel. -/
def oddScan (g : DG) : Nat × Int :=
  (DiGraph.vertices g).foldl (oddStep g) (0, 0)

/-- `count_odd` as computed by `find_path`. -/
def countOdd (g : DG) : Nat := (oddScan g).1

/-- `first_odd` as computed by `find_path` (sentinel `0` = none found). -/
def firstOddSent (g : DG) : Int := (oddScan g).2

/-- One iteration of the `v_next` search loop of `extend_path`:
`if (!v_next && v != p.front()) v_next = v;` with start vertex `s`. -/
def selAcc (s acc v : Int) : Int := if acc = 0 ∧ v ≠ s then v else acc

/-- The neighbor-selection step of `extend_path` for last vertex `u` and
global start vertex `s`: the `v_next` loop with its `0` sentinel, followed by
the fallback `v_next = p.front()`. -/
def selectNext (g : DG) (u s : Int) : Int :=
  let v0 := (DiGraph.neighbors g u).foldl (selAcc s) 0
  if v0 = 0 then s else v0

/-- Total number of directed adjacency entries, used as recursion fuel. -/
def totalEntries (g : DG) : Nat := g.foldl (fun a p => a + p.2.length) 0

/-- `extend_path`, threading the working graph explicitly and consuming one
unit of fuel per recursive call. -/
def extendPath : Nat → DG → List Int → DG × List Int
  | 0, g, p => (g, p)
  | n + 1, g, p =>
    if DiGraph.neighbors g (p.getLastD 0) = [] then (g, p)
    else
      extendPath n
        (Graph.remove_edge g (p.getLastD 0) (selectNext g (p.getLastD 0) (p.headD 0)))
        (p ++ [selectNext g (p.getLastD 0) (p.headD 0)])

/-- `find_path`: feasibility by odd-degree count, start-vertex selection with
the `0` sentinel, then the greedy walk on a working copy. -/
def findPath (g : DG) : List Int :=
  if countOdd g = 0 ∨ countOdd g = 2 then
    (extendPath (totalEntries g + 1) g
      [if firstOddSent g ≠ 0 then firstOddSent g else (DiGraph.vertices g).headD 0]).2
  else []

/-- `find_path` with the caller's graph made explicit: the C++ function takes
`const Graph<int>&` and mutates only the local copy `g_copy`, so the caller's
graph component of the result is the argument itself, untouched. -/
def findPathCaller (g : DG) : List Int × DG := (findPath g, g)

/-- Consecutive vertex pairs of a trail `p` — the edges the trail claims to
traverse. -/
def pairsOf (p : List Int) : List (Int × Int) := p.zip p.tail

/-- Two ordered pairs denote the same undirected edge. -/
def sameU (e f : Int × Int) : Prop :=
  (e.1 = f.1 ∧ e.2 = f.2) ∨ (e.1 = f.2 ∧ e.2 = f.1)

instance : DecidableRel sameU := fun e f => by unfold sameU; infer_instance

/-- Normalize an ordered pair to a canonical undirected representative. -/
def normPair (e : Int × Int) : Int × Int := if e.1 ≤ e.2 then e else (e.2, e.1)

/-- The undirected edge set of a graph, as normalized deduplicated pairs. -/
def edgesU (g : DG) : List (Int × Int) :=
  (g.flatMap (fun p => p.2.map (fun q => normPair (p.1, q.1)))).dedup

/-- The spec's start rule for the two-odd-vertices case: the first
odd-degree vertex in the deterministic vertex ordering. -/
def firstOddSpec (g : DG) : Option Int :=
  (DiGraph.vertices g).find? (fun v => degD g v % 2 = 1)

/-- Decidable, list-bounded statement that every directed adjacency entry has
its mirror image: the undirected symmetry invariant of `Graph`. -/
def EdgeSymm (g : DG) : Prop :=
  ∀ p ∈ g, ∀ q ∈ p.2, DiGraph.is_edge g q.1 p.1 = true

instance (g : DG) : Decidable (EdgeSymm g) := by unfold EdgeSymm; infer_instance

/-- Decidable, list-bounded statement that no vertex is labeled `0`, neither
as an outer key nor as a neighbor — the regime in which the `0` sentinels of
`find_path` and `extend_path` are unambiguous. -/
def ZeroFreeG (g : DG) : Prop :=
  ∀ p ∈ g, p.1 ≠ 0 ∧ ∀ q ∈ p.2, q.1 ≠ 0

instance (g : DG) : Decidable (ZeroFreeG g) := by unfold ZeroFreeG; infer_instance

/-- One round of breadth-first expansion along outgoing edges. -/
def reachExpand (g : DG) (s : List Int) : List Int :=
  (s ++ s.flatMap (DiGraph.neighbors g)).dedup

/-- `n` rounds of breadth-first expansion from the seed set `s`. -/
def reachN (g : DG) : Nat → List Int → List Int
  | 0, s => s
  | n + 1, s => reachN g n (reachExpand g s)

/-- Vertices that carry at least one incident edge. -/
def edgeVerts (g : DG) : List Int :=
  (g.filter (fun p => ¬p.2.isEmpty)).map Prod.fst

/-- Modelled from the spec: the claim hypothesis "the graph's edges form a
single connected component" (no connectivity check exists in the source),
rendered as: every vertex carrying an edge is reachable from the first such
vertex within `g.length` expansion rounds. -/
def edgeConnected (g : DG) : Prop :=
  match edgeVerts g with
  | [] => True
  | v :: _ => ∀ u ∈ edgeVerts g, u ∈ reachN g g.length [v]

instance (g : DG) : Decidable (edgeConnected g) := by
  unfold edgeConnected; cases h : edgeVerts g <;> infer_instance

end Euler

section Scenarios

open Euler

/-- Fold a list of unweighted undirected edges into a graph, as `main` does
with successive `add_edge` calls. -/
def buildG (es : List (Int × Int)) : DG :=
  es.foldl (fun g e => Graph.add_edge g e.1 e.2 1) []

/-- Sample graph #1 of `main` (spec Scenario A): an Euler circuit exists. -/
def gA : DG := buildG
  [(1,2),(1,3),(1,4),(1,5),(2,3),(2,5),(2,6),(3,6),(3,7),(4,5),(5,6),(6,7)]

/-- Sample graph #3 of `main` (spec Scenario C): four odd vertices. -/
def gC : DG := buildG
  [(1,2),(1,3),(1,4),(1,5),(2,3),(2,5),(3,6),(4,5),(4,6),(5,6)]

/-- Connected graph with two odd-degree vertices on which the greedy walk
strands edges: degrees are 1:3, 2:1, 3:2, 4:2. -/
def g4 : DG := buildG [(1,2),(1,3),(1,4),(3,4)]

/-- Single edge between vertices `0` and `1`: vertex `0` is the first
odd-degree vertex but collides with the `first_odd` sentinel. -/
def g01 : DG := buildG [(0,1)]

/-- Triangle on `{-1, 0, 1}`: vertex `0` collides with the `v_next`
sentinel of `extend_path`. -/
def gT : DG := buildG [(-1,0),(0,1),(1,-1)]

end Scenarios

/-- One client-visible mutation of the undirected graph API. -/
inductive GOp : Type
  | addV (v : Int)
  | addE (v1 v2 : Int) (w : Nat)
  | updE (v1 v2 : Int) (w : Nat)
  | remE (v1 v2 : Int)
  | remV (v : Int)

/-- Apply one undirected-API operation, as `Graph<int>` dispatches it. -/
def applyOp (g : DG) : GOp → DG
  | .addV v => DiGraph.add_vertex g v
  | .addE a b w => Graph.add_edge g a b w
  | .updE a b w => Graph.update_edge g a b w
  | .remE a b => Graph.remove_edge g a b
  | .remV v => DiGraph.remove g v

/-- The graph reached from the empty graph by a sequence of undirected
operations. -/
def runOps (ops : List GOp) : DG := ops.foldl applyOp []

/-- The undirected symmetry invariant: edge existence and weight agree in
both directions. -/
def SymmInv (g : DG) : Prop :=
  ∀ a b : Int, DiGraph.is_edge g a b = DiGraph.is_edge g b a ∧
    DiGraph.weight g a b = DiGraph.weight g b a

section MapLemmas

theorem mapFind?_set {α : Type} (l : List (Int × α)) (k k' : Int) (v : α) :
    mapFind? (mapSet l k v) k' = if k' = k then some v else mapFind? l k' := by
  induction l with
  | nil => simp only [mapSet, mapFind?]
  | cons p t ih =>
    obtain ⟨a, b⟩ := p
    simp only [mapSet]
    by_cases h1 : k < a
    · simp only [if_pos h1, mapFind?]
    · by_cases h2 : k = a
      · subst h2
        simp only [if_neg h1, if_pos rfl, mapFind?]
        by_cases hk : k' = k <;> simp [hk]
      · simp only [if_neg h1, if_neg h2, mapFind?, ih]
        by_cases ha : k' = a
        · have hkk : k' ≠ k := fun hh => h2 ((hh ▸ ha : k = a))
          have hak : ¬a = k := fun hh => h2 hh.symm
          simp [ha, hkk, hak]
        · by_cases hk : k' = k <;> simp [ha, hk]
          exact fun hh => absurd hh h2

theorem mapFind?_erase {α : Type} (l : List (Int × α)) (k k' : Int) :
    mapFind? (mapErase l k) k' = if k' = k then none else mapFind? l k' := by
  induction l with
  | nil => simp [mapErase, mapFind?]
  | cons p t ih =>
    obtain ⟨a, b⟩ := p
    by_cases hak : a = k
    · subst hak
      have he : mapErase ((a, b) :: t) a = mapErase t a := by simp [mapErase]
      rw [he, ih]
      by_cases hk : k' = a <;> simp [mapFind?, hk]
    · have he : mapErase ((a, b) :: t) k = (a, b) :: mapErase t k := by
        simp [mapErase, hak]
      rw [he]
      by_cases hk' : k' = a
      · subst hk'
        simp [mapFind?, hak]
      · by_cases hk : k' = k
        · subst hk
          simp [mapFind?, show ¬k' = a from hk', ih]
        · simp [mapFind?, hk', hk, ih]

theorem mapFind?_mem {α : Type} {l : List (Int × α)} {k : Int} {v : α}
    (h : mapFind? l k = some v) : (k, v) ∈ l := by
  induction l with
  | nil => simp [mapFind?] at h
  | cons p t ih =>
    obtain ⟨a, b⟩ := p
    by_cases hk : k = a
    · subst hk
      simp [mapFind?] at h
      simp [h]
    · simp [mapFind?, hk] at h
      simp [ih h]

theorem mapFind?_isSome_iff {α : Type} (l : List (Int × α)) (k : Int) :
    (mapFind? l k).isSome = true ↔ k ∈ l.map Prod.fst := by
  induction l with
  | nil => simp [mapFind?]
  | cons p t ih =>
    obtain ⟨a, b⟩ := p
    by_cases hk : k = a <;> simp [mapFind?, hk, ih]

theorem mapFind?_map_value {α β : Type} (l : List (Int × α)) (f : α → β) (k : Int) :
    mapFind? (l.map (fun p => (p.1, f p.2))) k = (mapFind? l k).map f := by
  induction l with
  | nil => simp [mapFind?]
  | cons p t ih =>
    obtain ⟨a, b⟩ := p
    by_cases hk : k = a <;> simp [mapFind?, hk, ih]

end MapLemmas

section GraphLemmas

theorem is_edge_eq_find (g : DG) (a b : Int) :
    DiGraph.is_edge g a b = (mapFind? ((mapFind? g a).getD []) b).isSome := by
  unfold DiGraph.is_edge
  cases h : mapFind? g a <;> simp [h, mapFind?]

theorem weight_eq_find (g : DG) (a b : Int) :
    DiGraph.weight g a b = (mapFind? ((mapFind? g a).getD []) b).getD 0 := by
  unfold DiGraph.weight
  cases h : mapFind? g a <;> simp [h, mapFind?]

theorem neighbors_eq_find (g : DG) (u : Int) :
    DiGraph.neighbors g u = ((mapFind? g u).getD []).map Prod.fst := by
  unfold DiGraph.neighbors
  cases h : mapFind? g u <;> simp [h]

theorem mapFind?_add_vertex (g : DG) (v k : Int) :
    mapFind? (DiGraph.add_vertex g v) k =
      if k = v then some ((mapFind? g v).getD []) else mapFind? g k := by
  unfold DiGraph.add_vertex
  cases h : mapFind? g v with
  | some m => by_cases hk : k = v <;> simp [hk, h]
  | none => rw [mapFind?_set]; simp [h]

theorem is_edge_remove_edge_d (g : DG) (a b x y : Int) :
    DiGraph.is_edge (DiGraph.remove_edge g a b) x y =
      if x = a ∧ y = b then false else DiGraph.is_edge g x y := by
  rw [is_edge_eq_find, is_edge_eq_find]
  unfold DiGraph.remove_edge
  rw [mapFind?_set]
  by_cases hx : x = a
  · subst hx
    rw [if_pos rfl]
    simp only [Option.getD_some]
    rw [mapFind?_erase]
    by_cases hy : y = b
    · simp [hy]
    · simp [hy]
  · simp [hx]

theorem weight_remove_edge_d (g : DG) (a b x y : Int) :
    DiGraph.weight (DiGraph.remove_edge g a b) x y =
      if x = a ∧ y = b then 0 else DiGraph.weight g x y := by
  rw [weight_eq_find, weight_eq_find]
  unfold DiGraph.remove_edge
  rw [mapFind?_set]
  by_cases hx : x = a
  · subst hx
    rw [if_pos rfl]
    simp only [Option.getD_some]
    rw [mapFind?_erase]
    by_cases hy : y = b
    · simp [hy]
    · simp [hy]
  · simp [hx]

theorem is_edge_add_vertex (g : DG) (v x y : Int) :
    DiGraph.is_edge (DiGraph.add_vertex g v) x y = DiGraph.is_edge g x y := by
  rw [is_edge_eq_find, is_edge_eq_find, mapFind?_add_vertex]
  by_cases hx : x = v
  · subst hx
    simp
  · simp [hx]

theorem weight_add_vertex (g : DG) (v x y : Int) :
    DiGraph.weight (DiGraph.add_vertex g v) x y = DiGraph.weight g x y := by
  rw [weight_eq_find, weight_eq_find, mapFind?_add_vertex]
  by_cases hx : x = v
  · subst hx
    simp
  · simp [hx]

theorem is_edge_update_edge_d (g : DG) (a b : Int) (w : Nat) (x y : Int) :
    DiGraph.is_edge (DiGraph.update_edge g a b w) x y =
      if x = a ∧ y = b then true else DiGraph.is_edge g x y := by
  rw [is_edge_eq_find, is_edge_eq_find]
  unfold DiGraph.update_edge
  rw [mapFind?_set]
  by_cases hx : x = a
  · subst hx
    rw [if_pos rfl]
    simp only [Option.getD_some]
    rw [mapFind?_set]
    by_cases hy : y = b
    · simp [hy]
    · simp only [if_neg hy, hy, and_false, if_false]
      rw [mapFind?_add_vertex]
      by_cases hab : x = b
      · subst hab
        simp
      · simp [hab]
  · simp only [hx, false_and, if_false, if_neg hx]
    rw [mapFind?_add_vertex]
    by_cases hb : x = b
    · subst hb
      simp
    · simp [hb]

theorem weight_update_edge_d (g : DG) (a b : Int) (w : Nat) (x y : Int) :
    DiGraph.weight (DiGraph.update_edge g a b w) x y =
      if x = a ∧ y = b then w else DiGraph.weight g x y := by
  rw [weight_eq_find, weight_eq_find]
  unfold DiGraph.update_edge
  rw [mapFind?_set]
  by_cases hx : x = a
  · subst hx
    rw [if_pos rfl]
    simp only [Option.getD_some]
    rw [mapFind?_set]
    by_cases hy : y = b
    · simp [hy]
    · simp only [if_neg hy, hy, and_false, if_false]
      rw [mapFind?_add_vertex]
      by_cases hab : x = b
      · subst hab
        simp
      · simp [hab]
  · simp only [hx, false_and, if_false, if_neg hx]
    rw [mapFind?_add_vertex]
    by_cases hb : x = b
    · subst hb
      simp
    · simp [hb]

theorem mapFind?_map_erase (l : DG) (v k : Int) :
    mapFind? (l.map (fun p => (p.1, mapErase p.2 v))) k =
      (mapFind? l k).map (fun m => mapErase m v) := by
  induction l with
  | nil => simp [mapFind?]
  | cons p t ih =>
    obtain ⟨a, b⟩ := p
    by_cases hk : k = a <;> simp [mapFind?, hk, ih]

theorem is_edge_remove_vertex (g : DG) (v x y : Int) :
    DiGraph.is_edge (DiGraph.remove g v) x y =
      if x = v ∨ y = v then false else DiGraph.is_edge g x y := by
  rw [is_edge_eq_find, is_edge_eq_find]
  unfold DiGraph.remove
  rw [mapFind?_erase]
  by_cases hx : x = v
  · simp [hx, mapFind?]
  · rw [if_neg hx, mapFind?_map_erase]
    cases h : mapFind? g x with
    | some m =>
      simp only [h, Option.map_some', Option.getD_some]
      rw [mapFind?_erase]
      by_cases hy : y = v <;> simp [hy, hx]
    | none => simp [h, hx, mapFind?]

theorem weight_remove_vertex (g : DG) (v x y : Int) :
    DiGraph.weight (DiGraph.remove g v) x y =
      if x = v ∨ y = v then 0 else DiGraph.weight g x y := by
  rw [weight_eq_find, weight_eq_find]
  unfold DiGraph.remove
  rw [mapFind?_erase]
  by_cases hx : x = v
  · simp [hx, mapFind?]
  · rw [if_neg hx, mapFind?_map_erase]
    cases h : mapFind? g x with
    | some m =>
      simp only [h, Option.map_some', Option.getD_some]
      rw [mapFind?_erase]
      by_cases hy : y = v <;> simp [hy, hx]
    | none => simp [h, hx, mapFind?]

theorem mem_neighbors_iff (g : DG) (u x : Int) :
    x ∈ DiGraph.neighbors g u ↔ DiGraph.is_edge g u x = true := by
  rw [neighbors_eq_find, is_edge_eq_find, mapFind?_isSome_iff]

theorem is_edge_remove_edge_g (g : DG) (a b x y : Int) :
    DiGraph.is_edge (Graph.remove_edge g a b) x y =
      if (x = a ∧ y = b) ∨ (x = b ∧ y = a) then false else DiGraph.is_edge g x y := by
  unfold Graph.remove_edge
  rw [is_edge_remove_edge_d, is_edge_remove_edge_d]
  by_cases h1 : x = a ∧ y = b <;> by_cases h2 : x = b ∧ y = a <;>
    simp [h1, h2]

end GraphLemmas

namespace Euler

theorem selAcc_foldl_ne_zero (s : Int) (l : List Int) :
    ∀ acc : Int, acc ≠ 0 → l.foldl (selAcc s) acc = acc := by
  induction l with
  | nil => intro acc _; rfl
  | cons x t ih =>
    intro acc h
    rw [List.foldl_cons, show selAcc s acc x = acc from by simp [selAcc, h]]
    exact ih acc h

theorem selAcc_foldl_first (s : Int) (l : List Int) (h0 : (0 : Int) ∉ l) (v : Int)
    (h : l.find? (fun x => x ≠ s) = some v) : l.foldl (selAcc s) 0 = v := by
  induction l with
  | nil => simp at h
  | cons x t ih =>
    rw [List.foldl_cons]
    by_cases hx : x = s
    · rw [List.find?_cons_of_neg _ (by simp [hx])] at h
      rw [show selAcc s 0 x = 0 from by simp [selAcc, hx]]
      exact ih (fun hm => h0 (List.mem_cons_of_mem x hm)) h
    · rw [List.find?_cons_of_pos _ (by simp [hx])] at h
      have hx0 : x ≠ 0 := fun hh => h0 (hh ▸ List.mem_cons_self x t)
      rw [show selAcc s 0 x = x from by simp [selAcc, hx]]
      rw [selAcc_foldl_ne_zero s t x hx0]
      exact Option.some.inj h

theorem selAcc_foldl_zero_of_all (s : Int) (l : List Int)
    (h : ∀ x ∈ l, x = s) : l.foldl (selAcc s) 0 = 0 := by
  induction l with
  | nil => rfl
  | cons x t ih =>
    rw [List.foldl_cons,
      show selAcc s 0 x = 0 from by simp [selAcc, h x (List.mem_cons_self x t)]]
    exact ih (fun y hy => h y (List.mem_cons_of_mem x hy))

theorem selAcc_foldl_zero_all (s : Int) (l : List Int)
    (h : l.foldl (selAcc s) 0 = 0) : ∀ x ∈ l, x = s ∨ x = 0 := by
  induction l with
  | nil => simp
  | cons x t ih =>
    rw [List.foldl_cons] at h
    by_cases hx : x = s
    · rw [show selAcc s 0 x = 0 from by simp [selAcc, hx]] at h
      intro y hy
      rcases List.mem_cons.mp hy with hy | hy
      · exact Or.inl (hy ▸ hx)
      · exact ih h y hy
    · by_cases hx0 : x = 0
      · rw [show selAcc s 0 x = 0 from by simp [selAcc, hx0]] at h
        intro y hy
        rcases List.mem_cons.mp hy with hy | hy
        · exact Or.inr (hy ▸ hx0)
        · exact ih h y hy
      · rw [show selAcc s 0 x = x from by simp [selAcc, hx],
          selAcc_foldl_ne_zero s t x hx0] at h
        exact absurd h hx0

theorem selectNext_found (g : DG) (u s v : Int)
    (h0 : (0 : Int) ∉ DiGraph.neighbors g u)
    (h : (DiGraph.neighbors g u).find? (fun x => x ≠ s) = some v) :
    selectNext g u s = v := by
  unfold selectNext
  have hv : v ≠ 0 := fun hh => h0 (hh ▸ List.mem_of_find?_eq_some h)
  rw [selAcc_foldl_first s _ h0 v h]
  simp [hv]

theorem selectNext_forced (g : DG) (u s : Int)
    (hne : DiGraph.neighbors g u ≠ [])
    (h : (DiGraph.neighbors g u).find? (fun x => x ≠ s) = none) :
    selectNext g u s = s ∧ s ∈ DiGraph.neighbors g u := by
  have hall : ∀ x ∈ DiGraph.neighbors g u, x = s := by
    intro x hx
    have := List.find?_eq_none.mp h x hx
    simpa using this
  refine ⟨?_, ?_⟩
  · unfold selectNext
    rw [selAcc_foldl_zero_of_all s _ hall]
    simp
  · cases hcase : DiGraph.neighbors g u with
    | nil => exact absurd hcase hne
    | cons a t =>
      have ha : a = s := hall a (by rw [hcase]; exact List.mem_cons_self a t)
      rw [← ha]
      exact List.mem_cons_self a t

theorem extendPath_head? (n : Nat) (g : DG) (p : List Int) (h : p ≠ []) :
    ((extendPath n g p).2).head? = p.head? := by
  induction n generalizing g p with
  | zero => rfl
  | succ n ih =>
    unfold extendPath
    split
    · rfl
    · rw [ih _ _ (by simp)]
      cases p with
      | nil => exact absurd rfl h
      | cons a t => simp

theorem oddFold_count (g : DG) (l : List Int) :
    ∀ (c : Nat) (f : Int),
      (l.foldl (oddStep g) (c, f)).1 = c + l.countP (fun v => degD g v % 2 = 1) := by
  induction l with
  | nil => intro c f; simp
  | cons x t ih =>
    intro c f
    rw [List.foldl_cons, List.countP_cons]
    by_cases hx : degD g x % 2 = 1
    · rw [show oddStep g (c, f) x = (c + 1, if f = 0 then x else f) from by
        simp [oddStep, hx]]
      rw [ih]
      simp only [hx, decide_eq_true_eq, if_pos, ite_true]
      omega
    · rw [show oddStep g (c, f) x = (c, f) from by simp [oddStep, hx]]
      rw [ih]
      simp [hx]

theorem oddFold_f_stable (g : DG) (l : List Int) :
    ∀ (c : Nat) (f : Int), f ≠ 0 → (l.foldl (oddStep g) (c, f)).2 = f := by
  induction l with
  | nil => intro c f _; rfl
  | cons x t ih =>
    intro c f hf
    rw [List.foldl_cons]
    by_cases hx : degD g x % 2 = 1
    · rw [show oddStep g (c, f) x = (c + 1, f) from by simp [oddStep, hx, hf]]
      exact ih _ _ hf
    · rw [show oddStep g (c, f) x = (c, f) from by simp [oddStep, hx]]
      exact ih _ _ hf

theorem oddFold_id_of_none (g : DG) (l : List Int)
    (h : ∀ v ∈ l, ¬degD g v % 2 = 1) :
    ∀ (c : Nat) (f : Int), l.foldl (oddStep g) (c, f) = (c, f) := by
  induction l with
  | nil => intro c f; rfl
  | cons x t ih =>
    intro c f
    rw [List.foldl_cons,
      show oddStep g (c, f) x = (c, f) from by
        simp [oddStep, h x (List.mem_cons_self x t)]]
    exact ih (fun y hy => h y (List.mem_cons_of_mem x hy)) c f

theorem oddFold_f_first (g : DG) (l : List Int) (v0 : Int) (hv : v0 ≠ 0)
    (h : l.find? (fun v => degD g v % 2 = 1) = some v0) :
    (l.foldl (oddStep g) (0, 0)).2 = v0 := by
  induction l with
  | nil => simp at h
  | cons x t ih =>
    rw [List.foldl_cons]
    by_cases hx : degD g x % 2 = 1
    · rw [List.find?_cons_of_pos _ (by simp [hx])] at h
      have hxv : x = v0 := Option.some.inj h
      rw [show oddStep g (0, 0) x = (1, x) from by simp [oddStep, hx]]
      rw [oddFold_f_stable g t 1 x (hxv ▸ hv)]
      exact hxv
    · rw [List.find?_cons_of_neg _ (by simp [hx])] at h
      rw [show oddStep g (0, 0) x = (0, 0) from by simp [oddStep, hx]]
      exact ih h

theorem countOdd_eq_countP (g : DG) :
    countOdd g = (DiGraph.vertices g).countP (fun v => degD g v % 2 = 1) := by
  unfold countOdd oddScan
  rw [oddFold_count]
  simp

theorem firstOddSent_of_spec (g : DG) (v0 : Int) (hv : v0 ≠ 0)
    (h : firstOddSpec g = some v0) : firstOddSent g = v0 := by
  unfold firstOddSent oddScan
  exact oddFold_f_first g _ v0 hv h

theorem pairsOf_nil : pairsOf [] = [] := rfl

theorem pairsOf_single (a : Int) : pairsOf [a] = [] := rfl

theorem pairsOf_cons2 (a b : Int) (l : List Int) :
    pairsOf (a :: b :: l) = (a, b) :: pairsOf (b :: l) := rfl

theorem getLastD_cons_cons (a b d : Int) (l : List Int) :
    (a :: b :: l).getLastD d = (b :: l).getLastD d := by
  simp [List.getLastD]

theorem pairsOf_append_last (p : List Int) (v : Int) :
    p ≠ [] → pairsOf (p ++ [v]) = pairsOf p ++ [(p.getLastD 0, v)] := by
  induction p with
  | nil => intro h; exact absurd rfl h
  | cons a t ih =>
    intro _
    cases t with
    | nil => rfl
    | cons b t2 =>
      rw [show pairsOf ((a :: b :: t2) ++ [v]) =
          (a, b) :: pairsOf ((b :: t2) ++ [v]) from rfl]
      rw [ih (by simp), pairsOf_cons2, getLastD_cons_cons]
      rfl

theorem is_edge_exists (g : DG) {a b : Int} (h : DiGraph.is_edge g a b = true) :
    ∃ m w, mapFind? g a = some m ∧ mapFind? m b = some w ∧
      (a, m) ∈ g ∧ (b, w) ∈ m := by
  rw [is_edge_eq_find] at h
  cases h1 : mapFind? g a with
  | none => rw [h1] at h; simp [mapFind?] at h
  | some m =>
    rw [h1] at h
    simp only [Option.getD_some] at h
    cases h2 : mapFind? m b with
    | none => rw [h2] at h; simp at h
    | some w =>
      exact ⟨m, w, rfl, h2, mapFind?_mem h1, mapFind?_mem h2⟩

theorem extendPath_edges_inv (n : Nat) :
    ∀ (g0 g : DG) (p : List Int),
      p ≠ [] →
      (∀ a b, DiGraph.is_edge g a b = true → DiGraph.is_edge g b a = true) →
      (∀ u, DiGraph.is_edge g u 0 = false) →
      (∀ a b, DiGraph.is_edge g a b = true → DiGraph.is_edge g0 a b = true) →
      (∀ e ∈ pairsOf p, DiGraph.is_edge g e.1 e.2 = false) →
      (∀ e ∈ pairsOf p, DiGraph.is_edge g0 e.1 e.2 = true) →
      List.Pairwise (fun e f => ¬sameU e f) (pairsOf p) →
      (∀ e ∈ pairsOf (extendPath n g p).2, DiGraph.is_edge g0 e.1 e.2 = true) ∧
      List.Pairwise (fun e f => ¬sameU e f) (pairsOf (extendPath n g p).2) := by
  induction n with
  | zero => intro g0 g p _ _ _ _ _ hGood hDist; exact ⟨hGood, hDist⟩
  | succ n ih =>
    intro g0 g p hp hSym hNZ hSub hFresh hGood hDist
    unfold extendPath
    split
    · exact ⟨hGood, hDist⟩
    next hne =>
      have hnz_nbr : (0 : Int) ∉ DiGraph.neighbors g (p.getLastD 0) := by
        intro hmem
        have := (mem_neighbors_iff g (p.getLastD 0) 0).mp hmem
        rw [hNZ (p.getLastD 0)] at this
        exact Bool.false_ne_true this
      have hv_mem :
          selectNext g (p.getLastD 0) (p.headD 0) ∈ DiGraph.neighbors g (p.getLastD 0) := by
        cases hfind : (DiGraph.neighbors g (p.getLastD 0)).find?
            (fun x => x ≠ p.headD 0) with
        | some w =>
          rw [selectNext_found g _ _ w hnz_nbr hfind]
          exact List.mem_of_find?_eq_some hfind
        | none =>
          obtain ⟨hsel, hmem⟩ := selectNext_forced g (p.getLastD 0) (p.headD 0) hne hfind
          rw [hsel]
          exact hmem
      have hv_edge :
          DiGraph.is_edge g (p.getLastD 0) (selectNext g (p.getLastD 0) (p.headD 0)) = true :=
        (mem_neighbors_iff g _ _).mp hv_mem
      have hpairs :
          pairsOf (p ++ [selectNext g (p.getLastD 0) (p.headD 0)]) =
            pairsOf p ++ [(p.getLastD 0, selectNext g (p.getLastD 0) (p.headD 0))] :=
        pairsOf_append_last p _ hp
      refine ih g0 _ _ (by simp) ?_ ?_ ?_ ?_ ?_ ?_
      · intro a b hab
        rw [is_edge_remove_edge_g] at hab ⊢
        by_cases hc : (a = p.getLastD 0 ∧ b = selectNext g (p.getLastD 0) (p.headD 0)) ∨
            (a = selectNext g (p.getLastD 0) (p.headD 0) ∧ b = p.getLastD 0)
        · rw [if_pos hc] at hab; exact absurd hab Bool.false_ne_true
        · rw [if_neg hc] at hab
          rw [if_neg (fun hc2 => hc (hc2.elim (fun hh => Or.inr ⟨hh.2, hh.1⟩)
            (fun hh => Or.inl ⟨hh.2, hh.1⟩)))]
          exact hSym a b hab
      · intro u
        rw [is_edge_remove_edge_g]
        split
        · rfl
        · exact hNZ u
      · intro a b hab
        rw [is_edge_remove_edge_g] at hab
        by_cases hc : (a = p.getLastD 0 ∧ b = selectNext g (p.getLastD 0) (p.headD 0)) ∨
            (a = selectNext g (p.getLastD 0) (p.headD 0) ∧ b = p.getLastD 0)
        · rw [if_pos hc] at hab; exact absurd hab Bool.false_ne_true
        · rw [if_neg hc] at hab; exact hSub a b hab
      · intro e he
        rw [hpairs] at he
        rw [is_edge_remove_edge_g]
        rcases List.mem_append.mp he with he | he
        · split
          · rfl
          · exact hFresh e he
        · have heq : e = (p.getLastD 0, selectNext g (p.getLastD 0) (p.headD 0)) := by
            simpa using he
          rw [if_pos (Or.inl ⟨by rw [heq], by rw [heq]⟩)]
      · intro e he
        rw [hpairs] at he
        rcases List.mem_append.mp he with he | he
        · exact hGood e he
        · have heq : e = (p.getLastD 0, selectNext g (p.getLastD 0) (p.headD 0)) := by
            simpa using he
          rw [heq]
          exact hSub _ _ hv_edge
      · rw [hpairs]
        rw [List.pairwise_append]
        refine ⟨hDist, List.pairwise_singleton _ _, ?_⟩
        intro e he f hf hsame
        have hfeq : f = (p.getLastD 0, selectNext g (p.getLastD 0) (p.headD 0)) := by
          simpa using hf
        rcases hsame with ⟨h1, h2⟩ | ⟨h1, h2⟩
        · have : DiGraph.is_edge g e.1 e.2 = true := by
            rw [h1, h2, hfeq]
            exact hv_edge
          rw [hFresh e he] at this
          exact Bool.false_ne_true this
        · have : DiGraph.is_edge g e.1 e.2 = true := by
            rw [h1, h2, hfeq]
            exact hSym _ _ hv_edge
          rw [hFresh e he] at this
          exact Bool.false_ne_true this

theorem firstOddSent_of_no_odd (g : DG) (h : countOdd g = 0) :
    firstOddSent g = 0 := by
  have hall : ∀ v ∈ DiGraph.vertices g, ¬degD g v % 2 = 1 := by
    rw [countOdd_eq_countP] at h
    intro v hv
    have := List.countP_eq_zero.mp h v hv
    simpa using this
  unfold firstOddSent oddScan
  rw [oddFold_id_of_none g _ hall]

end Euler

theorem weight_remove_edge_g (g : DG) (a b x y : Int) :
    DiGraph.weight (Graph.remove_edge g a b) x y =
      if (x = a ∧ y = b) ∨ (x = b ∧ y = a) then 0 else DiGraph.weight g x y := by
  unfold Graph.remove_edge
  rw [weight_remove_edge_d, weight_remove_edge_d]
  by_cases h1 : x = a ∧ y = b <;> by_cases h2 : x = b ∧ y = a <;>
    simp [h1, h2]

theorem symmInv_applyOp (g : DG) (hs : SymmInv g) (op : GOp) :
    SymmInv (applyOp g op) := by
  cases op with
  | addV v =>
    intro a b
    simp only [applyOp, is_edge_add_vertex, weight_add_vertex]
    exact hs a b
  | addE a' b' w' =>
    intro x y
    simp only [applyOp, Graph.add_edge]
    by_cases he : DiGraph.is_edge g a' b' = true
    · have he2 : DiGraph.is_edge g b' a' = true := by rw [← (hs a' b').1]; exact he
      rw [show DiGraph.add_edge g a' b' w' = g from by
        unfold DiGraph.add_edge; rw [if_pos he]]
      rw [show DiGraph.add_edge g b' a' w' = g from by
        unfold DiGraph.add_edge; rw [if_pos he2]]
      exact hs x y
    · have he2 : ¬DiGraph.is_edge g b' a' = true := by rw [← (hs a' b').1]; exact he
      rw [show DiGraph.add_edge g a' b' w' = DiGraph.update_edge g a' b' w' from by
        unfold DiGraph.add_edge; rw [if_neg he]]
      by_cases hab : a' = b'
      · subst hab
        rw [show DiGraph.add_edge (DiGraph.update_edge g a' a' w') a' a' w' =
            DiGraph.update_edge g a' a' w' from by
          unfold DiGraph.add_edge
          rw [if_pos (by rw [is_edge_update_edge_d]; simp)]]
        rw [is_edge_update_edge_d, is_edge_update_edge_d,
          weight_update_edge_d, weight_update_edge_d]
        constructor
        · by_cases h1 : x = a' ∧ y = a' <;> by_cases h2 : y = a' ∧ x = a' <;>
            simp [h1, h2, (hs x y).1]
        · by_cases h1 : x = a' ∧ y = a' <;> by_cases h2 : y = a' ∧ x = a' <;>
            simp [h1, h2, (hs x y).2]
      · rw [show DiGraph.add_edge (DiGraph.update_edge g a' b' w') b' a' w' =
            DiGraph.update_edge (DiGraph.update_edge g a' b' w') b' a' w' from by
          unfold DiGraph.add_edge
          rw [if_neg (by
            rw [is_edge_update_edge_d]
            rw [if_neg (fun hc : b' = a' ∧ a' = b' => hab hc.1.symm)]
            exact he2)]]
        rw [is_edge_update_edge_d, is_edge_update_edge_d,
          is_edge_update_edge_d, is_edge_update_edge_d,
          weight_update_edge_d, weight_update_edge_d,
          weight_update_edge_d, weight_update_edge_d]
        constructor
        · by_cases h1 : x = b' ∧ y = a' <;> by_cases h2 : x = a' ∧ y = b' <;>
            by_cases h3 : y = b' ∧ x = a' <;> by_cases h4 : y = a' ∧ x = b' <;>
            simp [h1, h2, h3, h4, (hs x y).1]
        · by_cases h1 : x = b' ∧ y = a' <;> by_cases h2 : x = a' ∧ y = b' <;>
            by_cases h3 : y = b' ∧ x = a' <;> by_cases h4 : y = a' ∧ x = b' <;>
            simp [h1, h2, h3, h4, (hs x y).2]
  | updE a' b' w' =>
    intro x y
    simp only [applyOp, Graph.update_edge]
    rw [is_edge_update_edge_d, is_edge_update_edge_d,
      is_edge_update_edge_d, is_edge_update_edge_d,
      weight_update_edge_d, weight_update_edge_d,
      weight_update_edge_d, weight_update_edge_d]
    constructor
    · by_cases h1 : x = b' ∧ y = a' <;> by_cases h2 : x = a' ∧ y = b' <;>
        by_cases h3 : y = b' ∧ x = a' <;> by_cases h4 : y = a' ∧ x = b' <;>
        simp [h1, h2, h3, h4, (hs x y).1]
    · by_cases h1 : x = b' ∧ y = a' <;> by_cases h2 : x = a' ∧ y = b' <;>
        by_cases h3 : y = b' ∧ x = a' <;> by_cases h4 : y = a' ∧ x = b' <;>
        simp [h1, h2, h3, h4, (hs x y).2]
  | remE a' b' =>
    intro x y
    simp only [applyOp]
    rw [is_edge_remove_edge_g, is_edge_remove_edge_g,
      weight_remove_edge_g, weight_remove_edge_g]
    constructor
    · by_cases h1 : (x = a' ∧ y = b') ∨ (x = b' ∧ y = a') <;>
        by_cases h2 : (y = a' ∧ x = b') ∨ (y = b' ∧ x = a') <;>
        simp [h1, h2, (hs x y).1]
      · exact absurd (h1.elim (fun hh => Or.inr ⟨hh.2, hh.1⟩)
          (fun hh => Or.inl ⟨hh.2, hh.1⟩)) h2
      · exact absurd (h2.elim (fun hh => Or.inr ⟨hh.2, hh.1⟩)
          (fun hh => Or.inl ⟨hh.2, hh.1⟩)) h1
    · by_cases h1 : (x = a' ∧ y = b') ∨ (x = b' ∧ y = a') <;>
        by_cases h2 : (y = a' ∧ x = b') ∨ (y = b' ∧ x = a') <;>
        simp [h1, h2, (hs x y).2]
      · exact absurd (h1.elim (fun hh => Or.inr ⟨hh.2, hh.1⟩)
          (fun hh => Or.inl ⟨hh.2, hh.1⟩)) h2
      · exact absurd (h2.elim (fun hh => Or.inr ⟨hh.2, hh.1⟩)
          (fun hh => Or.inl ⟨hh.2, hh.1⟩)) h1
  | remV v =>
    intro x y
    simp only [applyOp]
    rw [is_edge_remove_vertex, is_edge_remove_vertex,
      weight_remove_vertex, weight_remove_vertex]
    constructor
    · by_cases h1 : x = v ∨ y = v <;> by_cases h2 : y = v ∨ x = v <;>
        simp [h1, h2, (hs x y).1] <;>
        first
        | exact absurd h1.symm h2
        | exact absurd h2.symm h1
    · by_cases h1 : x = v ∨ y = v <;> by_cases h2 : y = v ∨ x = v <;>
        simp [h1, h2, (hs x y).2] <;>
        first
        | exact absurd h1.symm h2
        | exact absurd h2.symm h1

theorem symmInv_empty : SymmInv ([] : DG) := by
  intro a b
  constructor <;> rfl

theorem symmInv_foldl (ops : List GOp) :
    ∀ g : DG, SymmInv g → SymmInv (ops.foldl applyOp g) := by
  induction ops with
  | nil => intro g hg; exact hg
  | cons op t ih =>
    intro g hg
    rw [List.foldl_cons]
    exact ih (applyOp g op) (symmInv_applyOp g hg op)

theorem symmInv_runOps (ops : List GOp) : SymmInv (runOps ops) :=
  symmInv_foldl ops [] symmInv_empty



/-- Counterexample to claim C1: the graph `g4` with edges
(1,2)(1,3)(1,4)(3,4) is connected over its edges, has exactly two
odd-degree vertices and no vertex labeled 0, yet `find_path` returns the
trail [1,2], whose single implied edge omits the three edges (1,3), (1,4)
and (3,4) — the trail's edge multiset does not equal the graph's edge set. -/
theorem C1_counterexample :
    Euler.countOdd g4 = 2 ∧ Euler.edgeConnected g4 ∧ Euler.ZeroFreeG g4 ∧
    Euler.EdgeSymm g4 ∧
    Euler.findPath g4 = [1, 2] ∧
    DiGraph.is_edge g4 3 4 = true ∧
    (Euler.pairsOf (Euler.findPath g4)).map Euler.normPair = [(1, 2)] ∧
    (3, 4) ∈ Euler.edgesU g4 ∧
    (3, 4) ∉ (Euler.pairsOf (Euler.findPath g4)).map Euler.normPair ∧
    ¬((Euler.pairsOf (Euler.findPath g4)).map Euler.normPair).Perm (Euler.edgesU g4) := by
  decide

/-- Claim C1, amended: on every symmetric graph without a vertex labeled 0
(connected over its edges, with 0 or 2 odd-degree vertices), the consecutive
pairs of the trail returned by `find_path` are edges of the input graph and
no undirected edge is used twice; full coverage of the edge set does not
hold (see the counterexample). -/
theorem C1_trail_edges_no_repeat (g : DG) (hsym : Euler.EdgeSymm g)
    (hzf : Euler.ZeroFreeG g) (hconn : Euler.edgeConnected g)
    (hodd : Euler.countOdd g = 0 ∨ Euler.countOdd g = 2) :
    (∀ e ∈ Euler.pairsOf (Euler.findPath g), DiGraph.is_edge g e.1 e.2 = true) ∧
    List.Pairwise (fun e f => ¬Euler.sameU e f) (Euler.pairsOf (Euler.findPath g)) := by
  have hSym : ∀ a b, DiGraph.is_edge g a b = true → DiGraph.is_edge g b a = true := by
    intro a b hab
    obtain ⟨m, w, hm, hw, hmem, hwmem⟩ := Euler.is_edge_exists g hab
    exact hsym (a, m) hmem (b, w) hwmem
  have hNZ : ∀ u, DiGraph.is_edge g u 0 = false := by
    intro u
    cases hval : DiGraph.is_edge g u 0 with
    | false => rfl
    | true =>
      obtain ⟨m, w, hm, hw, hmem, hwmem⟩ := Euler.is_edge_exists g hval
      exact absurd rfl ((hzf (u, m) hmem).2 (0, w) hwmem)
  unfold Euler.findPath
  rw [if_pos hodd]
  exact Euler.extendPath_edges_inv _ g g _ (by simp) hSym hNZ (fun a b h => h)
    (by intro e he; simp [Euler.pairsOf] at he)
    (by intro e he; simp [Euler.pairsOf] at he)
    (by simp [Euler.pairsOf])

/-- Witness for the amended claim C1, instantiated at the Scenario A graph. -/
theorem C1_witness :
    Euler.EdgeSymm gA ∧ Euler.ZeroFreeG gA ∧ Euler.edgeConnected gA ∧
    Euler.countOdd gA = 0 ∧
    List.Pairwise (fun e f => ¬Euler.sameU e f) (Euler.pairsOf (Euler.findPath gA)) :=
  ⟨by decide, by decide, by decide, by decide,
    (C1_trail_edges_no_repeat gA (by decide) (by decide) (by decide)
      (Or.inl (by decide))).2⟩

/-- Counterexample to claim C2: on the single-edge graph between vertices 0
and 1, both vertices have odd degree, the first odd-degree vertex in
ascending order is 0, but `find_path` starts the trail at vertex 1 — the
`first_odd = 0` sentinel collides with the legitimate vertex label 0. -/
theorem C2_counterexample :
    List.Pairwise (fun a b : Int => a < b) (DiGraph.vertices g01) ∧
    Euler.countOdd g01 = 2 ∧ Euler.firstOddSpec g01 = some 0 ∧
    (Euler.findPath g01).head? = some 1 ∧ some (1 : Int) ≠ some (0 : Int) := by
  decide

/-- Claim C2, amended: for a nonempty graph with ascending vertex order,
when there are 0 odd-degree vertices the trail starts at the first vertex
of the ordering (this case tolerates a vertex labeled 0); when there are 2
odd-degree vertices the trail starts at the first odd-degree vertex of the
ordering provided that vertex is not labeled 0. -/
theorem C2_start_vertex (g : DG) (hne : DiGraph.vertices g ≠ [])
    (hsort : List.Pairwise (fun a b : Int => a < b) (DiGraph.vertices g)) :
    (Euler.countOdd g = 0 → (Euler.findPath g).head? = (DiGraph.vertices g).head?) ∧
    (∀ v0 : Int, Euler.countOdd g = 2 → Euler.firstOddSpec g = some v0 → v0 ≠ 0 →
      (Euler.findPath g).head? = some v0) := by
  constructor
  · intro h0
    unfold Euler.findPath
    rw [if_pos (Or.inl h0)]
    rw [Euler.extendPath_head? _ _ _ (by simp)]
    rw [Euler.firstOddSent_of_no_odd g h0]
    simp only [ne_eq, not_true_eq_false, if_false]
    cases hl : DiGraph.vertices g with
    | nil => exact absurd hl hne
    | cons a t => simp
  · intro v0 h2 hspec hv0
    unfold Euler.findPath
    rw [if_pos (Or.inr h2)]
    rw [Euler.extendPath_head? _ _ _ (by simp)]
    rw [Euler.firstOddSent_of_spec g v0 hv0 hspec]
    simp [hv0]

/-- Witness for the amended claim C2, instantiated at the Scenario A graph. -/
theorem C2_witness :
    DiGraph.vertices gA ≠ [] ∧
    List.Pairwise (fun a b : Int => a < b) (DiGraph.vertices gA) ∧
    Euler.countOdd gA = 0 ∧
    (Euler.findPath gA).head? = (DiGraph.vertices gA).head? :=
  ⟨by decide, by decide, by decide,
    (C2_start_vertex gA (by decide) (by decide)).1 (by decide)⟩

/-- Counterexample to claim C3: on the triangle over vertices -1, 0, 1 with
trail [-1], the last vertex -1 has remaining neighbors [0, 1]; the first
neighbor different from the start vertex -1 is 0, but `extend_path` selects
1 — the `v_next = 0` sentinel skips over a neighbor labeled 0. -/
theorem C3_counterexample :
    (Euler.findPath gT).take 2 = [-1, 1] ∧
    DiGraph.neighbors gT (-1) = [0, 1] ∧
    (DiGraph.neighbors gT (-1)).find? (fun x => x ≠ -1) = some 0 ∧
    Euler.selectNext gT (-1) (-1) = 1 ∧ (1 : Int) ≠ 0 := by
  decide

/-- Claim C3, amended: when the last vertex `u` of the trail has at least
one remaining neighbor and none of its neighbors is labeled 0, the vertex
selected next is the first remaining neighbor (in the deterministic
ascending order) different from the start vertex, and the start vertex is
selected exactly when every remaining neighbor of `u` equals it. -/
theorem C3_next_vertex (g : DG) (u s : Int)
    (h0 : (0 : Int) ∉ DiGraph.neighbors g u)
    (hne : DiGraph.neighbors g u ≠ [])
    (hsort : List.Pairwise (fun a b : Int => a < b) (DiGraph.neighbors g u)) :
    (∀ v, (DiGraph.neighbors g u).find? (fun x => x ≠ s) = some v →
      Euler.selectNext g u s = v ∧ v ≠ s) ∧
    ((DiGraph.neighbors g u).find? (fun x => x ≠ s) = none →
      Euler.selectNext g u s = s ∧ s ∈ DiGraph.neighbors g u ∧
      ∀ x ∈ DiGraph.neighbors g u, x = s) := by
  constructor
  · intro v hfind
    refine ⟨Euler.selectNext_found g u s v h0 hfind, ?_⟩
    have := List.find?_some hfind
    simpa using this
  · intro hnone
    obtain ⟨h1, h2⟩ := Euler.selectNext_forced g u s hne hnone
    refine ⟨h1, h2, ?_⟩
    intro x hx
    have := List.find?_eq_none.mp hnone x hx
    simpa using this

/-- Witness for the amended claim C3: at vertex 4 of the Scenario A graph
with start vertex 1, the selected next vertex is 5, the first neighbor of 4
different from 1. -/
theorem C3_witness :
    (0 : Int) ∉ DiGraph.neighbors gA 4 ∧
    DiGraph.neighbors gA 4 ≠ [] ∧
    List.Pairwise (fun a b : Int => a < b) (DiGraph.neighbors gA 4) ∧
    (DiGraph.neighbors gA 4).find? (fun x => x ≠ 1) = some 5 ∧
    Euler.selectNext gA 4 1 = 5 :=
  ⟨by decide, by decide, by decide, by decide,
    ((C3_next_vertex gA 4 1 (by decide) (by decide) (by decide)).1 5 (by decide)).1⟩

/-- Claim C4 evaluated at the failing input: `remove_edge(1, 2)` on the
empty graph creates vertex 1 (directed variant) and vertices 1 and 2
(undirected variant) instead of leaving the graph unchanged, contradicting
the claim and the function's own documentation; when both endpoints exist
and only the edge is absent, the call is a genuine no-op. -/
theorem C4_remove_edge_creates_vertex :
    DiGraph.is_vertex ([] : DG) 1 = false ∧
    DiGraph.is_vertex (DiGraph.remove_edge ([] : DG) 1 2) 1 = true ∧
    DiGraph.is_vertex (Graph.remove_edge ([] : DG) 1 2) 1 = true ∧
    DiGraph.is_vertex (Graph.remove_edge ([] : DG) 1 2) 2 = true ∧
    Graph.remove_edge ([] : DG) 1 2 ≠ ([] : DG) ∧
    Graph.remove_edge (buildG [(1, 2), (2, 3)]) 1 3 = buildG [(1, 2), (2, 3)] := by
  decide

/-- Claim C5: after any sequence of undirected operations starting from the
empty graph, edge existence is symmetric and, when the edge exists, the two
directed weights agree. -/
theorem C5_undirected_symmetry (ops : List GOp) (a b : Int) :
    DiGraph.is_edge (runOps ops) a b = DiGraph.is_edge (runOps ops) b a ∧
    (DiGraph.is_edge (runOps ops) a b = true →
      DiGraph.weight (runOps ops) a b = DiGraph.weight (runOps ops) b a) :=
  ⟨(symmInv_runOps ops a b).1, fun _ => (symmInv_runOps ops a b).2⟩

/-- Claim C6: whenever the number of odd-degree vertices is neither 0 nor
2, `find_path` returns the empty sequence; in particular the Scenario C
graph has 4 odd-degree vertices and yields the empty trail. -/
theorem C6_no_trail_otherwise :
    (∀ g : DG, Euler.countOdd g ≠ 0 → Euler.countOdd g ≠ 2 → Euler.findPath g = []) ∧
    Euler.countOdd gC = 4 ∧ Euler.findPath gC = [] := by
  refine ⟨?_, by decide, by decide⟩
  intro g h0 h2
  unfold Euler.findPath
  rw [if_neg (by simp [h0, h2])]

/-- Witness for claim C6, instantiated at the Scenario C graph. -/
theorem C6_witness :
    Euler.countOdd gC ≠ 0 ∧ Euler.countOdd gC ≠ 2 ∧ Euler.findPath gC = [] :=
  ⟨by decide, by decide, C6_no_trail_otherwise.1 gC (by decide) (by decide)⟩

/-- Claim C7: on the Scenario A graph, `find_path` returns the 13-vertex
trail [1,2,3,6,2,5,4,1,3,7,6,5,1], which starts and ends at vertex 1 and
whose 12 consecutive pairs use each of the 12 edges exactly once. -/
theorem C7_scenario_A :
    Euler.findPath gA = [1, 2, 3, 6, 2, 5, 4, 1, 3, 7, 6, 5, 1] ∧
    (Euler.findPath gA).length = 13 ∧
    (Euler.findPath gA).head? = some 1 ∧
    (Euler.findPath gA).getLast? = some 1 ∧
    ((Euler.pairsOf (Euler.findPath gA)).map Euler.normPair).Nodup ∧
    ((Euler.pairsOf (Euler.findPath gA)).map Euler.normPair).Perm (Euler.edgesU gA) := by
  decide

/-- Claim C8: `find_path` mutates only its working copy, so the caller's
graph component of `findPathCaller` is the unmodified input and every query
on it is unchanged. -/
theorem C8_caller_graph_unchanged :
    ∀ (g : DG) (v u : Int),
      (Euler.findPathCaller g).2 = g ∧
      DiGraph.is_vertex (Euler.findPathCaller g).2 v = DiGraph.is_vertex g v ∧
      DiGraph.is_edge (Euler.findPathCaller g).2 v u = DiGraph.is_edge g v u ∧
      DiGraph.weight (Euler.findPathCaller g).2 v u = DiGraph.weight g v u ∧
      Graph.degree? (Euler.findPathCaller g).2 v = Graph.degree? g v ∧
      (Euler.findPathCaller g).1 = Euler.findPath g :=
  fun g v u => ⟨rfl, rfl, rfl, rfl, rfl, rfl⟩

/-- Claim C9: for an absent vertex, the degree queries signal an error
(`none`, embedding the C++ `at` throw) while `neighbors`, `is_edge` and
`weight` return their defined absence values ([], false and 0). -/
theorem C9_absent_vertex_queries (g : DG) (v : Int)
    (h : DiGraph.is_vertex g v = false) :
    DiGraph.degree_out? g v = none ∧ Graph.degree? g v = none ∧
    DiGraph.neighbors g v = [] ∧
    ∀ u : Int, DiGraph.is_edge g v u = false ∧ DiGraph.weight g v u = 0 := by
  have hn : mapFind? g v = none := by
    unfold DiGraph.is_vertex at h
    exact Option.not_isSome_iff_eq_none.mp (by simp [h])
  refine ⟨?_, ?_, ?_, ?_⟩
  · simp [DiGraph.degree_out?, hn]
  · simp [Graph.degree?, DiGraph.degree_out?, hn]
  · simp [DiGraph.neighbors, hn]
  · intro u
    constructor
    · simp [DiGraph.is_edge, hn]
    · simp [DiGraph.weight, hn]

/-- Witness for claim C9, instantiated at vertex 10, absent from the
Scenario A graph. -/
theorem C9_witness :
    DiGraph.is_vertex gA 10 = false ∧
    DiGraph.degree_out? gA 10 = none ∧ DiGraph.neighbors gA 10 = [] :=
  ⟨by decide, (C9_absent_vertex_queries gA 10 (by decide)).1,
    (C9_absent_vertex_queries gA 10 (by decide)).2.2.1⟩

/-- Claim C10: `find_path` is deterministic — equal input graphs produce
identical vertex sequences. -/
theorem C10_deterministic (g1 g2 : DG) (h : g1 = g2) :
    Euler.findPath g1 = Euler.findPath g2 := by rw [h]

/-- Witness for claim C10, instantiated at the Scenario A graph. -/
theorem C10_witness : gA = gA ∧ Euler.findPath gA = Euler.findPath gA :=
  ⟨rfl, C10_deterministic gA gA rfl⟩
